import Mathlib

/-
  Verification of the Luminara harmonic-angle scanner
  (source: streamlit_app.py).

  Shallow embedding conventions:
  - Timestamps are POSIX seconds, modelled as rationals.  The source
    converts between datetime objects, Skyfield Time objects and POSIX
    float seconds; all those conversions are value-preserving, so a
    single rational time value stands for all three representations.
  - Angles are degrees, modelled as rationals.  Python float arithmetic
    is modelled by exact rational arithmetic.
  - The ephemeris is an external black box: the apparent geocentric
    ecliptic longitude of each body is an arbitrary function
    lon : time -> degrees supplied as a parameter.
  - The golden-section constant resphi = 2 - (1 + sqrt 5) / 2 is an
    irrational number truncated to a float by the source; it is modelled
    as a rational parameter r, and resphiFloat below is the printed
    value of the float the source computes.
-/

/-
  Refinement engine (source lines 171-245, refine_hit_time_golden).

  The state mirrors the Python local variables: interval ends a and b,
  probe positions x1 and x2 (POSIX floats in the source), the Skyfield
  time objects t1 and t2 built from the probes, and the objective values
  f1 and f2.  The source updates x1, x2, f1, f2 in both branches of the
  loop but rebuilds only one of t1, t2, so t1 and t2 can go stale; the
  model reproduces that faithfully.  The evals field is a ghost trace
  recording every objective value the source computes, used to state
  that the returned deviation is the best value observed.
-/

/-
  Scan orchestrator (source lines 251-365, scan_harmonic_timing_refined)
  and the driver validation (source lines 501-512 in main).

  A Hit models one appended result dict (source lines 318-325); the
  planet labels are constant through one scan and the datetime_str field
  is a formatting of the timestamp, so both are elided.  Durations are
  seconds; the source advances the grid by timedelta(minutes=step), so
  stepSec stands for 60 * step_minutes.
-/

/-
  Helper lemmas for the claims.
-/

/-- Python modulo for rationals: x - y * floor (x / y).  For y > 0 the
result lies in [0, y), matching the semantics of the % operator the
source applies to longitudes and separations. -/
def qmod (x y : ℚ) : ℚ := x - y * (Int.floor (x / y) : ℚ)

/-- Source line 123: geocentric ecliptic longitude normalised into
[0, 360) by the trailing % 360.0.  The raw longitude returned by the
ephemeris is the black-box parameter lon. -/
def ecliptic_longitude_deg (lon : ℚ → ℚ) (t : ℚ) : ℚ :=
  qmod (lon t) 360

/-- Source line 140: directional separation (lon1 - lon2) % 360,
in [0, 360). -/
def angle_between_ecliptic_longitudes_deg (lon1 lon2 : ℚ → ℚ) (t : ℚ) : ℚ :=
  qmod (ecliptic_longitude_deg lon1 t - ecliptic_longitude_deg lon2 t) 360

/-- Source lines 151-165, the pure arithmetic part: distance of a
separation value to a target angle, as the source computes it. -/
def angleDiffOfSep (separation target : ℚ) : ℚ :=
  let diff1 := |separation - target|
  let diff2 := if target < 180 then |separation - (target + 360)|
               else |separation - (target - 360)|
  let diff3 := 360 - diff1
  min diff1 (min diff2 diff3)

/-- Source line 151: the objective function minimised by refinement,
composition of the separation and the distance-to-target arithmetic. -/
def angle_diff_to_target_deg (lon1 lon2 : ℚ → ℚ) (t target : ℚ) : ℚ :=
  angleDiffOfSep (angle_between_ecliptic_longitudes_deg lon1 lon2 t) target

/-- Specification-side definition (section 8 of the spec): circular
minimum distance between two angles, min (|a - b|, 360 - |a - b|). -/
def circularMinDist (a b : ℚ) : ℚ :=
  min (|a - b|) (360 - |a - b|)

structure GoldenState where
  a : ℚ
  b : ℚ
  x1 : ℚ
  x2 : ℚ
  t1 : ℚ
  t2 : ℚ
  f1 : ℚ
  f2 : ℚ
  evals : List ℚ
deriving DecidableEq

/-- One iteration of the golden-section loop body (source lines 224-239). -/
def goldenStep (f : ℚ → ℚ) (r : ℚ) (s : GoldenState) : GoldenState :=
  if s.f1 < s.f2 then
    let b := s.x2
    let x2 := s.x1
    let f2 := s.f1
    let x1 := s.a + r * (b - s.a)
    let f1 := f x1
    ⟨s.a, b, x1, x2, x1, s.t2, f1, f2, f1 :: s.evals⟩
  else
    let a := s.x1
    let x1 := s.x2
    let f1 := s.f2
    let x2 := s.b - r * (s.b - a)
    let f2 := f x2
    ⟨a, s.b, x1, x2, s.t1, x2, f1, f2, f2 :: s.evals⟩

/-- The for-loop (source lines 220-239): at most maxIter iterations,
breaking as soon as the interval is narrower than the tolerance. -/
def goldenLoop (f : ℚ → ℚ) (r tol : ℚ) : ℕ → GoldenState → GoldenState
  | 0, s => s
  | n + 1, s => if s.b - s.a < tol then s else goldenLoop f r tol n (goldenStep f r s)

/-- Source lines 171-245.  Returns ((t_best, diff_best), evals) where
evals is the ghost trace of objective values computed.  The datetime
and Skyfield conversions of the source are value-preserving and elided. -/
def refineGolden (f : ℚ → ℚ) (r tLo tHi : ℚ) (maxIter : ℕ) (tolSeconds : ℚ) :
    (ℚ × ℚ) × List ℚ :=
  if tHi - tLo < tolSeconds then
    let tMid := (tLo + tHi) / 2
    let dMid := f tMid
    ((tMid, dMid), [dMid])
  else
    let x1 := tLo + r * (tHi - tLo)
    let x2 := tHi - r * (tHi - tLo)
    let s0 : GoldenState := ⟨tLo, tHi, x1, x2, x1, x2, f x1, f x2, [f x1, f x2]⟩
    let s := goldenLoop f r tolSeconds maxIter s0
    if s.f1 < s.f2 then ((s.t1, s.f1), s.evals) else ((s.t2, s.f2), s.evals)

/-- The pair the source function returns. -/
def refine_hit_time_golden (f : ℚ → ℚ) (r tLo tHi : ℚ) (maxIter : ℕ)
    (tolSeconds : ℚ) : ℚ × ℚ :=
  (refineGolden f r tLo tHi maxIter tolSeconds).1

/-- The printed value of the float constant resphi = 2 - phi computed at
source lines 191-192. -/
def resphiFloat : ℚ := 3819660112501051 / 10000000000000000

/-- Loop invariant: the current pair of objective values is among the
recorded evaluations, and their minimum is a lower bound for every
recorded evaluation. -/
def GoodState (s : GoldenState) : Prop :=
  s.f1 ∈ s.evals ∧ s.f2 ∈ s.evals ∧ ∀ v ∈ s.evals, min s.f1 s.f2 ≤ v

structure Hit where
  ts : ℚ
  target : ℚ
  delta : ℚ
deriving DecidableEq

/-- Comparison key of the final sort (source line 347, key = timestamp). -/
def tsLe (u v : Hit) : Prop := u.ts ≤ v.ts

instance : DecidableRel tsLe := fun u v => inferInstanceAs (Decidable (u.ts ≤ v.ts))

instance : IsTotal Hit tsLe := ⟨fun u v => le_total u.ts v.ts⟩

instance : IsTrans Hit tsLe := ⟨fun _ _ _ h1 h2 => le_trans h1 h2⟩

/-- Source lines 350-355: walk the sorted list keeping a hit only when
its timestamp is more than 30 seconds after the last kept timestamp. -/
def dedupeAux (last : Hit) : List Hit → List Hit
  | [] => []
  | r :: rs => if r.ts - last.ts > 30 then r :: dedupeAux r rs else dedupeAux last rs

/-- Source lines 347-355: the first sorted hit is always kept. -/
def dedupe : List Hit → List Hit
  | [] => []
  | h :: t => h :: dedupeAux h t

/-- Source lines 293-308: a bracket is sent to refinement for a target
exactly when the midpoint deviation is at most orb * 2.0 (otherwise the
continue at line 299 skips it) and the minimum of the three sampled
deviations is at most orb * 1.5. -/
def dispatched (f : ℚ → ℚ) (orb lo hi : ℚ) : Bool :=
  let mid := lo + (hi - lo) / 2
  let midDiff := f mid
  if midDiff > orb * 2 then false
  else
    let loDiff := f lo
    let hiDiff := f hi
    if min midDiff (min loDiff hiDiff) ≤ orb * (3 / 2) then true else false

/-- Source lines 293-325 for one bracket and one target: dispatch check,
golden-section refinement with maxIter 15 and tol 3 s, and the orb
acceptance filter.  The except branch at line 326 is unreachable here
because the modelled objective is total. -/
def bracketTargetHit (f : ℚ → ℚ) (r orb target lo hi : ℚ) : Option Hit :=
  if dispatched f orb lo hi then
    if (refine_hit_time_golden f r lo hi 15 3).2 ≤ orb then
      some ⟨(refine_hit_time_golden f r lo hi 15 3).1, target,
            (refine_hit_time_golden f r lo hi 15 3).2⟩
    else none
  else none

/-- Source line 293: the inner loop over the target angles. -/
def scanBracket (lon1 lon2 : ℚ → ℚ) (r orb : ℚ) (targets : List ℚ)
    (lo hi : ℚ) : List Hit :=
  targets.filterMap fun target =>
    bracketTargetHit (fun t => angle_diff_to_target_deg lon1 lon2 t target)
      r orb target lo hi

/-- Results accumulated over a list of brackets, in source order. -/
def collectHits (lon1 lon2 : ℚ → ℚ) (r orb : ℚ) (targets : List ℚ)
    (bs : List (ℚ × ℚ)) : List Hit :=
  (bs.map fun p => scanBracket lon1 lon2 r orb targets p.1 p.2).flatten

/-- The coarse while-loop (source lines 282-340) rendered exactly, with
fuel counting loop iterations: the guard is current <= end, the bracket
is (current, min (current + step) end), and the loop variable becomes
min (current + step) end.  The result is none when the fuel runs out
before the guard fails, i.e. before the loop would exit. -/
def coarseLoop (stepSec e : ℚ) : ℕ → ℚ → Option (List (ℚ × ℚ))
  | 0, _ => none
  | n + 1, cur =>
    if cur ≤ e then
      Option.map (fun bs => (cur, min (cur + stepSec) e) :: bs)
        (coarseLoop stepSec e n (min (cur + stepSec) e))
    else some []

/-- The brackets produced by the first fuel iterations of the same loop
(the finite prefix of its trace). -/
def coarseBrackets (stepSec e : ℚ) : ℕ → ℚ → List (ℚ × ℚ)
  | 0, _ => []
  | n + 1, cur =>
    if cur ≤ e then
      (cur, min (cur + stepSec) e) :: coarseBrackets stepSec e n (min (cur + stepSec) e)
    else []

/-- Source lines 345-365: sort by timestamp, then deduplicate; an empty
result list short-circuits (the source returns an empty DataFrame). -/
def finalizeResults (results : List Hit) : List Hit :=
  match results with
  | [] => []
  | _ => dedupe (List.insertionSort tsLe results)

/-- Source lines 251-365 end to end, over the brackets visited in the
first fuel iterations of the coarse loop.  As proved for claim C1 the
source loop itself never exits once start <= end, so this models the
result assembly applied to any bounded prefix of the loop trace. -/
def scan_harmonic_timing_refined (lon1 lon2 : ℚ → ℚ) (targets : List ℚ)
    (orb startD endD stepSec r : ℚ) (fuel : ℕ) : List Hit :=
  finalizeResults
    (collectHits lon1 lon2 r orb targets (coarseBrackets stepSec endD fuel startD))

/-- The ten selectable bodies (source lines 402-403); the source
represents them as strings from a fixed list, an opaque enumeration. -/
inductive Planet where
  | sun | moon | mercury | venus | mars
  | jupiter | saturn | uranus | neptune | pluto
deriving DecidableEq

/-- Outcome of pressing Run Harmonic Scan (source lines 501-541). -/
inductive RunResult where
  | errIdenticalPlanets : RunResult
  | errNoAngles : RunResult
  | errDateOrder : RunResult
  | scanStarted : List ℚ → RunResult
deriving DecidableEq

/-- Source lines 501-527: the validation chain of main, in source
order: identical planets, then empty angle selection in Harmonics mode,
then inverted date range; only after all checks pass does the driver
evaluate the ephemeris (fingerprint anchor angle) and start the scan.
The longitude functions are parameters, so an error outcome is computed
without ever applying them. -/
def runScanRequest (lon1 lon2 : ℚ → ℚ) (planet1 planet2 : Planet)
    (fingerprintMode : Bool) (selectedAngles : List ℚ) (anchorT : ℚ)
    (startD endD : ℚ) : RunResult :=
  if planet1 = planet2 then RunResult.errIdenticalPlanets
  else if fingerprintMode = false ∧ selectedAngles = [] then RunResult.errNoAngles
  else if endD ≤ startD then RunResult.errDateOrder
  else if fingerprintMode then
    RunResult.scanStarted [angle_between_ecliptic_longitudes_deg lon1 lon2 anchorT]
  else RunResult.scanStarted selectedAngles

/-
  Concrete instantiations used by counterexamples and witnesses.  The
  ephemeris is a black box, so any longitude function is an admissible
  instantiation of it; the step functions below realise the deviation
  profiles that exhibit the behaviour in question (target angle 0, so
  the deviation at separation s within [0, 180] is s itself).
-/

/-- A body fixed at longitude 0. -/
def lonZero (_ : ℚ) : ℚ := 0

/-- A body fixed at longitude 1: constant deviation 1 to target 0. -/
def lonOne (_ : ℚ) : ℚ := 1

/-- A constant-zero objective, used to instantiate refinement theorems. -/
def devZero (_ : ℚ) : ℚ := 0

/-- Longitude profile for the C2 counterexample: separation 0 at the
bracket start, 10 afterwards. -/
def lonC2 (u : ℚ) : ℚ := if u ≤ 1 / 2 then 0 else 10

/-- Deviation to target 0 induced by lonC2. -/
def devC2 (u : ℚ) : ℚ := angle_diff_to_target_deg lonC2 lonZero u 0

/-- Longitude profile for the C3 counterexample: separation 0 exactly
at the coarse midpoint 3 of the bracket [0, 6], and 2 elsewhere. -/
def lonC3 (u : ℚ) : ℚ := if u = 3 then 0 else 2

/-- Deviation to target 0 induced by lonC3. -/
def devC3 (u : ℚ) : ℚ := angle_diff_to_target_deg lonC3 lonZero u 0

/-- Longitude profile for the C5 failing input: separation 1 near the
window start, 1/2 on [2, 5/2], and 2 elsewhere. -/
def lonC5 (u : ℚ) : ℚ :=
  if u ≤ 1 / 2 then 1 else if 2 ≤ u ∧ u ≤ 5 / 2 then 1 / 2 else 2

/-- Deviation to target 0 induced by lonC5. -/
def devC5 (u : ℚ) : ℚ := angle_diff_to_target_deg lonC5 lonZero u 0

/-- The timestamp the C5 refinement returns: the first-iteration probe
6 * resphiFloat * (1 - resphiFloat), a point whose objective value 2
was discarded, while the returned deviation 1/2 belongs to the probe at
6 * resphiFloat. -/
def tsC5 : ℚ := 70820393249936905254580571686197 / 50000000000000000000000000000000

/-- Golden-section state after initialisation on the C5 input
(bracket [0, 6], probes 6 r and 6 (1 - r) for r = resphiFloat). -/
def s0C5 : GoldenState :=
  ⟨0, 6, 11458980337503153 / 5000000000000000, 18541019662496847 / 5000000000000000,
   11458980337503153 / 5000000000000000, 18541019662496847 / 5000000000000000,
   1 / 2, 2, [1 / 2, 2]⟩

/-- State after the first loop iteration on the C5 input: the branch
f1 < f2 ran, x2 and f2 were shifted from x1 and f1, but t2 kept the
discarded probe time 6 (1 - r). -/
def s1C5 : GoldenState :=
  ⟨0, 18541019662496847 / 5000000000000000, tsC5, 11458980337503153 / 5000000000000000,
   tsC5, 18541019662496847 / 5000000000000000, 2, 1 / 2, [2, 1 / 2, 2]⟩

/-- State after the second loop iteration on the C5 input: the else
branch ran, x1 and f1 were shifted from x2 and f2, but t1 kept the
stale time tsC5 even though the objective there is 2, not 1/2. -/
def s2C5 : GoldenState :=
  ⟨tsC5, 18541019662496847 / 5000000000000000, 11458980337503153 / 5000000000000000,
   1416407864998738319830113034412666111898004693047 / 500000000000000000000000000000000000000000000000,
   tsC5,
   1416407864998738319830113034412666111898004693047 / 500000000000000000000000000000000000000000000000,
   1 / 2, 2, [2, 2, 1 / 2, 2]⟩

/-- All components of the golden-section state stay inside the original
bracket: every update is either a copy of an existing component or a
convex combination (1 - r) * u + r * v of two components. -/
def InBounds (lo hi : ℚ) (s : GoldenState) : Prop :=
  (lo ≤ s.a ∧ s.a ≤ hi) ∧ (lo ≤ s.b ∧ s.b ≤ hi) ∧
  (lo ≤ s.x1 ∧ s.x1 ≤ hi) ∧ (lo ≤ s.x2 ∧ s.x2 ≤ hi) ∧
  (lo ≤ s.t1 ∧ s.t1 ≤ hi) ∧ (lo ≤ s.t2 ∧ s.t2 ≤ hi)

lemma qmod_nonneg (x y : ℚ) (hy : 0 < y) : 0 ≤ qmod x y := by
  have h := Int.floor_le (x / y)
  have h2 : y * (Int.floor (x / y) : ℚ) ≤ y * (x / y) :=
    mul_le_mul_of_nonneg_left h (le_of_lt hy)
  have h3 : y * (x / y) = x := by field_simp
  unfold qmod
  linarith

lemma qmod_lt (x y : ℚ) (hy : 0 < y) : qmod x y < y := by
  have h := Int.lt_floor_add_one (x / y)
  have h2 : y * (x / y) < y * ((Int.floor (x / y) : ℚ) + 1) :=
    mul_lt_mul_of_pos_left h hy
  have h3 : y * (x / y) = x := by field_simp
  unfold qmod
  nlinarith

lemma angle_between_nonneg (lon1 lon2 : ℚ → ℚ) (t : ℚ) :
    0 ≤ angle_between_ecliptic_longitudes_deg lon1 lon2 t :=
  qmod_nonneg _ _ (by norm_num)

lemma angle_between_lt_360 (lon1 lon2 : ℚ → ℚ) (t : ℚ) :
    angle_between_ecliptic_longitudes_deg lon1 lon2 t < 360 :=
  qmod_lt _ _ (by norm_num)

lemma circularMinDist_comm (a b : ℚ) : circularMinDist a b = circularMinDist b a := by
  unfold circularMinDist
  rw [abs_sub_comm]

/-- On the domains the scanner uses (separation in [0, 360), target in
[0, 360]) the source arithmetic agrees with the circular minimum
distance: the extra diff2 term is redundant. -/
lemma angleDiffOfSep_eq_circular (s target : ℚ)
    (hs0 : 0 ≤ s) (hs : s < 360) (ht0 : 0 ≤ target) (ht : target ≤ 360) :
    angleDiffOfSep s target = circularMinDist s target := by
  unfold angleDiffOfSep circularMinDist
  rcases abs_cases (s - target) with ⟨h1, h1s⟩ | ⟨h1, h1s⟩ <;>
    rcases lt_or_le target 180 with hcase | hcase <;>
    simp only [hcase, if_true, if_false, if_pos, if_neg, not_lt] <;>
    rcases abs_cases (s - (target + 360)) with ⟨h2, h2s⟩ | ⟨h2, h2s⟩ <;>
    rcases abs_cases (s - (target - 360)) with ⟨h3, h3s⟩ | ⟨h3, h3s⟩ <;>
    simp only [min_def] <;> split_ifs <;> linarith

lemma circularMinDist_nonneg (a b : ℚ) (h : |a - b| ≤ 360) :
    0 ≤ circularMinDist a b := by
  unfold circularMinDist
  rcases abs_cases (a - b) with ⟨h1, _⟩ | ⟨h1, _⟩ <;>
    simp only [min_def] <;> split_ifs <;> linarith

lemma circularMinDist_le_180 (a b : ℚ) :
    circularMinDist a b ≤ 180 := by
  unfold circularMinDist
  rcases le_total (|a - b|) 180 with h1 | h1 <;>
    simp only [min_def] <;> split_ifs <;> linarith

/-- The value computed by the source is a lower bound for every
representative |a - target + 360 k| of the circular distance. -/
lemma circularMinDist_le_abs (s target : ℚ) (hs0 : 0 ≤ s) (hs : s < 360)
    (ht0 : 0 ≤ target) (ht : target ≤ 360) (k : ℤ) :
    circularMinDist s target ≤ |s - target + 360 * (k : ℚ)| := by
  have habs : |s - target| ≤ 360 := by
    rcases abs_cases (s - target) with ⟨h1, _⟩ | ⟨h1, _⟩ <;> linarith
  have htri : |(360 : ℚ) * (k : ℚ)| - |s - target| ≤ |s - target + 360 * (k : ℚ)| := by
    have h0 : (360 : ℚ) * (k : ℚ) = (s - target + 360 * (k : ℚ)) - (s - target) := by ring
    have h1 := abs_sub (s - target + 360 * (k : ℚ)) (s - target)
    rw [← h0] at h1
    linarith
  rcases lt_trichotomy k 0 with hk | hk | hk
  · have hk1 : (k : ℚ) ≤ -1 := by exact_mod_cast Int.le_sub_one_of_lt hk
    have habsk : |(360 : ℚ) * (k : ℚ)| = -(360 * (k : ℚ)) := by
      rw [abs_of_nonpos]; nlinarith
    unfold circularMinDist
    have h36 : (360 : ℚ) ≤ -(360 * (k : ℚ)) := by nlinarith
    calc min (|s - target|) (360 - |s - target|) ≤ 360 - |s - target| := min_le_right _ _
      _ ≤ |(360 : ℚ) * (k : ℚ)| - |s - target| := by rw [habsk]; linarith
      _ ≤ _ := htri
  · subst hk
    unfold circularMinDist
    have h0 : |s - target + 360 * ((0 : ℤ) : ℚ)| = |s - target| := by norm_num
    rw [h0]
    exact min_le_left _ _
  · have hk1 : (1 : ℚ) ≤ (k : ℚ) := by exact_mod_cast hk
    have habsk : |(360 : ℚ) * (k : ℚ)| = 360 * (k : ℚ) := by
      rw [abs_of_nonneg]; nlinarith
    unfold circularMinDist
    have h36 : (360 : ℚ) ≤ 360 * (k : ℚ) := by nlinarith
    calc min (|s - target|) (360 - |s - target|) ≤ 360 - |s - target| := min_le_right _ _
      _ ≤ |(360 : ℚ) * (k : ℚ)| - |s - target| := by rw [habsk]; linarith
      _ ≤ _ := htri

/-- The value computed by the source is attained by some representative,
so together with the lower-bound lemma it is exactly the minimum over
all integers k of |a - target + 360 k|. -/
lemma circularMinDist_exists_abs (s target : ℚ) (hs0 : 0 ≤ s) (hs : s < 360)
    (ht0 : 0 ≤ target) (ht : target ≤ 360) :
    ∃ k : ℤ, circularMinDist s target = |s - target + 360 * (k : ℚ)| := by
  unfold circularMinDist
  rcases le_total (|s - target|) (360 - |s - target|) with h | h
  · exact ⟨0, by rw [min_eq_left h]; norm_num⟩
  · rcases abs_cases (s - target) with ⟨h1, h1s⟩ | ⟨h1, h1s⟩
    · refine ⟨-1, ?_⟩
      rw [min_eq_right h, h1]
      rw [abs_of_nonpos (by push_cast; linarith)]
      push_cast
      ring
    · refine ⟨1, ?_⟩
      rw [min_eq_right h, h1]
      rw [abs_of_nonneg (by push_cast; linarith)]
      push_cast
      ring

lemma goldenStep_good (f : ℚ → ℚ) (r : ℚ) (s : GoldenState)
    (h : GoodState s) : GoodState (goldenStep f r s) := by
  obtain ⟨h1, h2, hmin⟩ := h
  unfold goldenStep
  split_ifs with hlt
  · refine ⟨List.mem_cons_self _ _, List.mem_cons_of_mem _ h1, ?_⟩
    intro v hv
    rcases List.mem_cons.mp hv with hv | hv
    · subst hv; exact min_le_left _ _
    · have hv2 := hmin v hv
      have hle : min s.f1 s.f2 = s.f1 := min_eq_left (le_of_lt hlt)
      calc min (f (s.a + r * (s.x2 - s.a))) s.f1 ≤ s.f1 := min_le_right _ _
        _ ≤ v := by rw [hle] at hv2; exact hv2
  · refine ⟨List.mem_cons_of_mem _ h2, List.mem_cons_self _ _, ?_⟩
    intro v hv
    rcases List.mem_cons.mp hv with hv | hv
    · subst hv; exact min_le_right _ _
    · have hv2 := hmin v hv
      have hle : min s.f1 s.f2 = s.f2 := min_eq_right (le_of_not_lt hlt)
      calc min s.f2 (f (s.b - r * (s.b - s.x1))) ≤ s.f2 := min_le_left _ _
        _ ≤ v := by rw [hle] at hv2; exact hv2

lemma goldenLoop_good (f : ℚ → ℚ) (r tol : ℚ) (n : ℕ) (s : GoldenState)
    (h : GoodState s) : GoodState (goldenLoop f r tol n s) := by
  induction n generalizing s with
  | zero => exact h
  | succ n ih =>
    unfold goldenLoop
    split_ifs with hb
    · exact h
    · exact ih _ (goldenStep_good f r s h)

lemma goldenLoop_evals_suffix (f : ℚ → ℚ) (r tol : ℚ) (n : ℕ) (s : GoldenState) :
    s.evals <:+ (goldenLoop f r tol n s).evals := by
  induction n generalizing s with
  | zero => exact List.suffix_refl _
  | succ n ih =>
    unfold goldenLoop
    split_ifs with hb
    · exact List.suffix_refl _
    · refine List.IsSuffix.trans ?_ (ih (goldenStep f r s))
      unfold goldenStep
      split_ifs <;> exact List.suffix_cons _ _

lemma convex_mem_left (lo hi u v r : ℚ) (hr0 : 0 ≤ r) (hr1 : r ≤ 1)
    (hu : lo ≤ u) (hu2 : u ≤ hi) (hv : lo ≤ v) (hv2 : v ≤ hi) :
    lo ≤ u + r * (v - u) ∧ u + r * (v - u) ≤ hi := by
  constructor <;> nlinarith

lemma convex_mem_right (lo hi u v r : ℚ) (hr0 : 0 ≤ r) (hr1 : r ≤ 1)
    (hu : lo ≤ u) (hu2 : u ≤ hi) (hv : lo ≤ v) (hv2 : v ≤ hi) :
    lo ≤ u - r * (u - v) ∧ u - r * (u - v) ≤ hi := by
  constructor <;> nlinarith

lemma goldenStep_inBounds (f : ℚ → ℚ) (r lo hi : ℚ) (hr0 : 0 ≤ r) (hr1 : r ≤ 1)
    (s : GoldenState) (h : InBounds lo hi s) : InBounds lo hi (goldenStep f r s) := by
  obtain ⟨⟨ha1, ha2⟩, ⟨hb1, hb2⟩, ⟨hx11, hx12⟩, ⟨hx21, hx22⟩, ⟨ht11, ht12⟩, ⟨ht21, ht22⟩⟩ := h
  unfold goldenStep
  split_ifs with hlt
  · have hc := convex_mem_left lo hi s.a s.x2 r hr0 hr1 ha1 ha2 hx21 hx22
    exact ⟨⟨ha1, ha2⟩, ⟨hx21, hx22⟩, hc, ⟨hx11, hx12⟩, hc, ⟨ht21, ht22⟩⟩
  · have hc := convex_mem_right lo hi s.b s.x1 r hr0 hr1 hb1 hb2 hx11 hx12
    exact ⟨⟨hx11, hx12⟩, ⟨hb1, hb2⟩, ⟨hx21, hx22⟩, hc, ⟨ht11, ht12⟩, hc⟩

lemma goldenLoop_inBounds (f : ℚ → ℚ) (r tol lo hi : ℚ) (hr0 : 0 ≤ r) (hr1 : r ≤ 1)
    (n : ℕ) (s : GoldenState) (h : InBounds lo hi s) :
    InBounds lo hi (goldenLoop f r tol n s) := by
  induction n generalizing s with
  | zero => exact h
  | succ n ih =>
    unfold goldenLoop
    split_ifs with hb
    · exact h
    · exact ih _ (goldenStep_inBounds f r lo hi hr0 hr1 s h)

/-- The time returned by refinement lies inside the bracket it was
given, for any probe constant r in [0, 1]. -/
lemma refine_ts_mem (f : ℚ → ℚ) (r lo hi tol : ℚ) (n : ℕ)
    (hr0 : 0 ≤ r) (hr1 : r ≤ 1) (hlohi : lo ≤ hi) :
    lo ≤ (refine_hit_time_golden f r lo hi n tol).1 ∧
    (refine_hit_time_golden f r lo hi n tol).1 ≤ hi := by
  unfold refine_hit_time_golden refineGolden
  split_ifs with hsmall
  · constructor <;> simp <;> linarith
  · have hx1 := convex_mem_left lo hi lo hi r hr0 hr1 (le_refl lo) hlohi hlohi (le_refl hi)
    have hx2 := convex_mem_right lo hi hi lo r hr0 hr1 hlohi (le_refl hi) (le_refl lo) hlohi
    have hx1e : lo + r * (hi - lo) = lo + r * (hi - lo) := rfl
    have hinit : InBounds lo hi
        ⟨lo, hi, lo + r * (hi - lo), hi - r * (hi - lo), lo + r * (hi - lo),
          hi - r * (hi - lo), f (lo + r * (hi - lo)), f (hi - r * (hi - lo)),
          [f (lo + r * (hi - lo)), f (hi - r * (hi - lo))]⟩ := by
      refine ⟨⟨le_refl lo, hlohi⟩, ⟨hlohi, le_refl hi⟩, hx1, hx2, hx1, hx2⟩
    have hfin := goldenLoop_inBounds f r tol lo hi hr0 hr1 n _ hinit
    obtain ⟨_, _, _, _, ⟨ht11, ht12⟩, ⟨ht21, ht22⟩⟩ := hfin
    dsimp only
    split_ifs with hlt
    · exact ⟨ht11, ht12⟩
    · exact ⟨ht21, ht22⟩

/-- Every bracket the coarse loop visits satisfies
start <= lo <= hi <= end (for a nonnegative step). -/
lemma coarseBrackets_bounds (stepSec e : ℚ) (hstep : 0 ≤ stepSec) :
    ∀ (fuel : ℕ) (cur s0 : ℚ), s0 ≤ cur →
      ∀ p ∈ coarseBrackets stepSec e fuel cur,
        s0 ≤ p.1 ∧ p.1 ≤ p.2 ∧ p.2 ≤ e := by
  intro fuel
  induction fuel with
  | zero => intro cur s0 hcur p hp; simp [coarseBrackets] at hp
  | succ n ih =>
    intro cur s0 hcur p hp
    unfold coarseBrackets at hp
    split_ifs at hp with hguard
    · rcases List.mem_cons.mp hp with hp | hp
      · subst hp
        refine ⟨hcur, le_min (by linarith) hguard, min_le_right _ _⟩
      · have hnext : s0 ≤ min (cur + stepSec) e := le_min (by linarith) (by linarith)
        exact ih _ s0 hnext p hp
    · simp at hp

/-- Deduplication only ever keeps input elements, in order. -/
lemma dedupeAux_sublist (t : List Hit) : ∀ last, List.Sublist (dedupeAux last t) t := by
  induction t with
  | nil => intro last; simp [dedupeAux]
  | cons r rs ih =>
    intro last
    unfold dedupeAux
    split_ifs with hgap
    · exact List.Sublist.cons₂ r (ih r)
    · exact List.Sublist.cons r (ih last)

lemma dedupe_sublist (l : List Hit) : List.Sublist (dedupe l) l := by
  cases l with
  | nil => simp [dedupe]
  | cons h t => exact List.Sublist.cons₂ h (dedupeAux_sublist t h)

/-- Every kept hit is more than 30 seconds after the previously kept
hit, measuring from the last kept element. -/
lemma dedupeAux_chain (t : List Hit) :
    ∀ last, List.Chain (fun u v => v.ts - u.ts > 30) last (dedupeAux last t) := by
  induction t with
  | nil => intro last; simp [dedupeAux]
  | cons r rs ih =>
    intro last
    unfold dedupeAux
    split_ifs with hgap
    · exact List.Chain.cons hgap (ih r)
    · exact ih last

/-- Membership in the final list implies membership in the collected
results: sorting permutes and deduplication takes a sublist. -/
lemma finalizeResults_mem (results : List Hit) (h : Hit)
    (hmem : h ∈ finalizeResults results) : h ∈ results := by
  unfold finalizeResults at hmem
  match results, hmem with
  | r :: rs, hmem =>
    have h1 : h ∈ List.insertionSort tsLe (r :: rs) :=
      (dedupe_sublist _).subset hmem
    exact (List.mem_insertionSort tsLe).mp h1

/-- A hit produced for one bracket and one target has the timestamp the
refinement returned. -/
lemma bracketTargetHit_ts (f : ℚ → ℚ) (r orb target lo hi : ℚ) (h : Hit)
    (hmem : bracketTargetHit f r orb target lo hi = some h) :
    h.ts = (refine_hit_time_golden f r lo hi 15 3).1 := by
  unfold bracketTargetHit at hmem
  split_ifs at hmem with h1 h2
  · cases hmem
    rfl

/-- Every collected hit has its timestamp inside the bracket that
produced it. -/
lemma collectHits_ts_bounds (lon1 lon2 : ℚ → ℚ) (r orb : ℚ) (targets : List ℚ)
    (bs : List (ℚ × ℚ)) (lo0 hi0 : ℚ)
    (hr0 : 0 ≤ r) (hr1 : r ≤ 1)
    (hbs : ∀ p ∈ bs, lo0 ≤ p.1 ∧ p.1 ≤ p.2 ∧ p.2 ≤ hi0) :
    ∀ h ∈ collectHits lon1 lon2 r orb targets bs, lo0 ≤ h.ts ∧ h.ts ≤ hi0 := by
  intro h hmem
  unfold collectHits at hmem
  rcases List.mem_flatten.mp hmem with ⟨l, hl, hhl⟩
  rcases List.mem_map.mp hl with ⟨p, hp, hpl⟩
  subst hpl
  rcases List.mem_filterMap.mp hhl with ⟨target, htarget, hsome⟩
  obtain ⟨hb1, hb2, hb3⟩ := hbs p hp
  have hts := bracketTargetHit_ts _ r orb target p.1 p.2 h hsome
  have hrange := refine_ts_mem
    (fun t => angle_diff_to_target_deg lon1 lon2 t target) r p.1 p.2 3 15 hr0 hr1 hb2
  rw [hts]
  exact ⟨le_trans hb1 hrange.1, le_trans hrange.2 hb3⟩


lemma goldenLoop_succ (f : ℚ → ℚ) (r tol : ℚ) (n : ℕ) (s : GoldenState) :
    goldenLoop f r tol (n + 1) s =
      if s.b - s.a < tol then s else goldenLoop f r tol n (goldenStep f r s) := rfl

/-
  Claim theorems.
-/

/-- C1: the claim says every scan with start < end and positive step
terminates.  The code does not: the loop guard is current <= end and
next is clamped to end, so once current reaches end the state repeats
and the guard stays true.  This theorem shows the loop never exits
whenever the guard holds, for every finite iteration budget. -/
theorem scan_loop_never_terminates (stepSec e : ℚ) :
    ∀ (fuel : ℕ) (cur : ℚ), cur ≤ e → coarseLoop stepSec e fuel cur = none := by
  intro fuel
  induction fuel with
  | zero => intro cur hc; rfl
  | succ n ih =>
    intro cur hc
    unfold coarseLoop
    rw [if_pos hc, ih _ (min_le_right _ _)]
    rfl

theorem scan_loop_never_terminates_witness :
    (0 : ℚ) ≤ 21600 ∧ coarseLoop 3600 21600 7 0 = none :=
  ⟨by norm_num, scan_loop_never_terminates 3600 21600 7 0 (by norm_num)⟩

/-- C2 counterexample: the deviation at the bracket start is 0, well
under the widened threshold orb * 1.5, yet no candidate is emitted,
because the midpoint deviation exceeds orb * 2 and the continue at
source line 299 skips the bracket before the endpoints are examined. -/
theorem endpoint_under_threshold_not_dispatched :
    devC2 0 ≤ 1 * (3 / 2) ∧ dispatched devC2 1 0 2 = false := by
  with_unfolding_all decide

/-- C2 amended: a candidate bracket is emitted for a target if and only
if the midpoint deviation is at most orb * 2.0 and the minimum of the
three sampled deviations is at most orb * 1.5; in particular a midpoint
deviation at most orb * 1.5 suffices (for nonnegative orb), but an
endpoint under the widened threshold alone does not. -/
theorem bracket_dispatch_characterization (f : ℚ → ℚ) (orb lo hi : ℚ) :
    (dispatched f orb lo hi = true ↔
      (f (lo + (hi - lo) / 2) ≤ orb * 2
        ∧ min (f (lo + (hi - lo) / 2)) (min (f lo) (f hi)) ≤ orb * (3 / 2)))
    ∧ (0 ≤ orb → f (lo + (hi - lo) / 2) ≤ orb * (3 / 2) →
        dispatched f orb lo hi = true) := by
  have hchar : dispatched f orb lo hi = true ↔
      (f (lo + (hi - lo) / 2) ≤ orb * 2
        ∧ min (f (lo + (hi - lo) / 2)) (min (f lo) (f hi)) ≤ orb * (3 / 2)) := by
    unfold dispatched
    dsimp only
    constructor
    · intro hd
      by_cases h1 : f (lo + (hi - lo) / 2) > orb * 2
      · rw [if_pos h1] at hd
        exact absurd hd (by simp)
      · rw [if_neg h1] at hd
        by_cases h2 : min (f (lo + (hi - lo) / 2)) (min (f lo) (f hi)) ≤ orb * (3 / 2)
        · exact ⟨le_of_not_lt h1, h2⟩
        · rw [if_neg h2] at hd
          exact absurd hd (by simp)
    · rintro ⟨ha, hb⟩
      rw [if_neg (not_lt.mpr ha), if_pos hb]
  refine ⟨hchar, fun horb hmid => hchar.mpr ⟨le_trans hmid (by linarith), ?_⟩⟩
  exact le_trans (min_le_left _ _) hmid

theorem bracket_dispatch_characterization_witness :
    (0 : ℚ) ≤ 1 ∧ devZero (0 + (2 - 0) / 2) ≤ 1 * (3 / 2)
    ∧ dispatched devZero 1 0 2 = true := by
  refine ⟨by norm_num, by norm_num [devZero], ?_⟩
  exact (bracket_dispatch_characterization devZero 1 0 2).2 (by norm_num)
    (by norm_num [devZero])

/-- C3 counterexample: the bracket [0, 6] is dispatched to refinement
(its midpoint deviation is 0), yet the refined deviation is 2, strictly
larger than the deviation at the coarse midpoint: the golden-section
probes never sample the midpoint, so refinement does not improve on it. -/
theorem refine_can_exceed_midpoint_deviation :
    dispatched devC3 1 0 6 = true
    ∧ ¬ ((refine_hit_time_golden devC3 resphiFloat 0 6 15 3).2 ≤
          devC3 (0 + (6 - 0) / 2)) := by
  with_unfolding_all decide

/-- C3 amended: for a bracket at least as wide as the tolerance, the
refined deviation is at most the deviation at each of the two initial
golden-section probe points (not at the coarse midpoint). -/
theorem refine_le_initial_probes (f : ℚ → ℚ) (r lo hi tol : ℚ) (n : ℕ)
    (hwide : tol ≤ hi - lo) :
    (refine_hit_time_golden f r lo hi n tol).2 ≤ f (lo + r * (hi - lo))
    ∧ (refine_hit_time_golden f r lo hi n tol).2 ≤ f (hi - r * (hi - lo)) := by
  unfold refine_hit_time_golden refineGolden
  rw [if_neg (not_lt.mpr hwide)]
  dsimp only
  have hgood0 : GoodState
      ⟨lo, hi, lo + r * (hi - lo), hi - r * (hi - lo), lo + r * (hi - lo),
        hi - r * (hi - lo), f (lo + r * (hi - lo)), f (hi - r * (hi - lo)),
        [f (lo + r * (hi - lo)), f (hi - r * (hi - lo))]⟩ := by
    refine ⟨by simp, by simp, ?_⟩
    intro v hv
    rcases List.mem_cons.mp hv with hv | hv
    · subst hv; exact min_le_left _ _
    · rcases List.mem_singleton.mp hv with rfl; exact min_le_right _ _
  have hgood := goldenLoop_good f r tol n _ hgood0
  have hsuf := goldenLoop_evals_suffix f r tol n
      ⟨lo, hi, lo + r * (hi - lo), hi - r * (hi - lo), lo + r * (hi - lo),
        hi - r * (hi - lo), f (lo + r * (hi - lo)), f (hi - r * (hi - lo)),
        [f (lo + r * (hi - lo)), f (hi - r * (hi - lo))]⟩
  have hm1 : f (lo + r * (hi - lo)) ∈
      (goldenLoop f r tol n
        ⟨lo, hi, lo + r * (hi - lo), hi - r * (hi - lo), lo + r * (hi - lo),
          hi - r * (hi - lo), f (lo + r * (hi - lo)), f (hi - r * (hi - lo)),
          [f (lo + r * (hi - lo)), f (hi - r * (hi - lo))]⟩).evals :=
    hsuf.subset (by simp)
  have hm2 : f (hi - r * (hi - lo)) ∈
      (goldenLoop f r tol n
        ⟨lo, hi, lo + r * (hi - lo), hi - r * (hi - lo), lo + r * (hi - lo),
          hi - r * (hi - lo), f (lo + r * (hi - lo)), f (hi - r * (hi - lo)),
          [f (lo + r * (hi - lo)), f (hi - r * (hi - lo))]⟩).evals :=
    hsuf.subset (by simp)
  obtain ⟨hf1, hf2, hmin⟩ := hgood
  split_ifs with hlt
  · have heq : min _ _ = _ := min_eq_left (le_of_lt hlt)
    exact ⟨heq ▸ hmin _ hm1, heq ▸ hmin _ hm2⟩
  · have heq : min _ _ = _ := min_eq_right (le_of_not_lt hlt)
    exact ⟨heq ▸ hmin _ hm1, heq ▸ hmin _ hm2⟩

theorem refine_le_initial_probes_witness :
    (3 : ℚ) ≤ 10 - 0
    ∧ (refine_hit_time_golden devZero (1 / 4) 0 10 15 3).2 ≤
        devZero (0 + (1 / 4) * (10 - 0))
    ∧ (refine_hit_time_golden devZero (1 / 4) 0 10 15 3).2 ≤
        devZero (10 - (1 / 4) * (10 - 0)) := by
  have h := refine_le_initial_probes devZero (1 / 4) 0 10 3 15 (by norm_num)
  exact ⟨by norm_num, h.1, h.2⟩

/-- C4: the deviation returned by refine_hit_time_golden equals the
minimum of the objective over all points at which the search evaluated
the objective: it is one of the recorded evaluations and a lower bound
for all of them, even when the best value was found at an earlier
iteration. -/
theorem refine_returns_min_of_evaluations (f : ℚ → ℚ) (r lo hi tol : ℚ) (n : ℕ) :
    (refineGolden f r lo hi n tol).1.2 ∈ (refineGolden f r lo hi n tol).2
    ∧ ∀ v ∈ (refineGolden f r lo hi n tol).2, (refineGolden f r lo hi n tol).1.2 ≤ v := by
  unfold refineGolden
  split_ifs with hs
  · dsimp only
    refine ⟨List.mem_singleton_self _, ?_⟩
    intro v hv
    rcases List.mem_singleton.mp hv with rfl
    exact le_refl _
  · dsimp only
    have hgood0 : GoodState
        ⟨lo, hi, lo + r * (hi - lo), hi - r * (hi - lo), lo + r * (hi - lo),
          hi - r * (hi - lo), f (lo + r * (hi - lo)), f (hi - r * (hi - lo)),
          [f (lo + r * (hi - lo)), f (hi - r * (hi - lo))]⟩ := by
      refine ⟨by simp, by simp, ?_⟩
      intro v hv
      rcases List.mem_cons.mp hv with hv | hv
      · subst hv; exact min_le_left _ _
      · rcases List.mem_singleton.mp hv with rfl; exact min_le_right _ _
    have hgood := goldenLoop_good f r tol n _ hgood0
    obtain ⟨hf1, hf2, hmin⟩ := hgood
    split_ifs with hlt
    · refine ⟨hf1, ?_⟩
      intro v hv
      have := hmin v hv
      rwa [min_eq_left (le_of_lt hlt)] at this
    · refine ⟨hf2, ?_⟩
      intro v hv
      have := hmin v hv
      rwa [min_eq_right (le_of_not_lt hlt)] at this

theorem refine_returns_min_of_evaluations_witness :
    (refineGolden devZero (1 / 4) 0 10 15 3).1.2 ∈ (refineGolden devZero (1 / 4) 0 10 15 3).2
    ∧ (refineGolden devZero (1 / 4) 0 10 15 3).1.2 ≤ 0 :=
  ⟨(refine_returns_min_of_evaluations devZero (1 / 4) 0 10 3 15).1,
   (refine_returns_min_of_evaluations devZero (1 / 4) 0 10 3 15).2 0
     (by with_unfolding_all decide)⟩

/-- C6: deduplication keeps the first hit, only keeps input hits in
their order, and every kept hit is more than 30 seconds (the
min_gap_duration of this implementation) after the previously kept
hit.  The last two conjuncts give both directions of the keep decision
at every step, with last the most recently kept hit: a subsequent hit
whose timestamp is more than 30 seconds after last is kept and becomes
the new last, and one within 30 seconds is discarded, the state
unchanged — for every hit r, so in particular the deviation fields
play no role and a smaller-deviation hit is discarded all the same. -/
theorem dedupe_first_and_gap_invariant (h : Hit) (t : List Hit) :
    (dedupe (h :: t)).head? = some h
    ∧ List.Chain' (fun u v => v.ts - u.ts > 30) (dedupe (h :: t))
    ∧ List.Sublist (dedupe (h :: t)) (h :: t)
    ∧ (∀ (last r : Hit) (rs : List Hit), r.ts - last.ts > 30 →
        dedupeAux last (r :: rs) = r :: dedupeAux r rs)
    ∧ (∀ (last r : Hit) (rs : List Hit), ¬ (r.ts - last.ts > 30) →
        dedupeAux last (r :: rs) = dedupeAux last rs) := by
  refine ⟨rfl, ?_, dedupe_sublist _, ?_, ?_⟩
  · show List.Chain (fun u v => v.ts - u.ts > 30) h (dedupeAux h t)
    exact dedupeAux_chain t h
  · intro last r rs hgap
    simp only [dedupeAux]
    rw [if_pos hgap]
  · intro last r rs hgap
    simp only [dedupeAux]
    rw [if_neg hgap]

theorem dedupe_first_and_gap_invariant_witness :
    (Hit.mk 40 0 2).ts - (Hit.mk 0 0 1).ts > 30
    ∧ dedupeAux (Hit.mk 0 0 1) [Hit.mk 40 0 2] = [Hit.mk 40 0 2]
    ∧ ¬ ((Hit.mk 50 0 0).ts - (Hit.mk 40 0 2).ts > 30)
    ∧ dedupeAux (Hit.mk 40 0 2) [Hit.mk 50 0 0] = []
    ∧ (dedupe [Hit.mk 0 0 1, Hit.mk 40 0 2, Hit.mk 50 0 0]).head? = some (Hit.mk 0 0 1) := by
  have hth := dedupe_first_and_gap_invariant (Hit.mk 0 0 1) [Hit.mk 40 0 2, Hit.mk 50 0 0]
  refine ⟨by norm_num, ?_, by norm_num, ?_, hth.1⟩
  · rw [hth.2.2.2.1 (Hit.mk 0 0 1) (Hit.mk 40 0 2) [] (by norm_num)]
    rfl
  · rw [hth.2.2.2.2 (Hit.mk 40 0 2) (Hit.mk 50 0 0) [] (by norm_num)]
    rfl

/-- C7: on the domains the scanner uses, the deviation computed by
angle_diff_to_target_deg is exactly the circular minimum distance: it
equals min (d, 360 - d) for d the absolute separation difference, lies
in [0, 180], bounds every representative |s - target + 360 k| from
below and is attained by one of them, and the comparison distance is
symmetric; the two concrete values of the claim are included. -/
theorem angle_diff_is_circular_min_distance :
    (∀ (lon1 lon2 : ℚ → ℚ) (t target : ℚ), 0 ≤ target → target ≤ 360 →
        angle_diff_to_target_deg lon1 lon2 t target
            = circularMinDist (angle_between_ecliptic_longitudes_deg lon1 lon2 t) target
        ∧ 0 ≤ angle_diff_to_target_deg lon1 lon2 t target
        ∧ angle_diff_to_target_deg lon1 lon2 t target ≤ 180
        ∧ (∀ k : ℤ, angle_diff_to_target_deg lon1 lon2 t target
              ≤ |angle_between_ecliptic_longitudes_deg lon1 lon2 t - target + 360 * (k : ℚ)|)
        ∧ ∃ k : ℤ, angle_diff_to_target_deg lon1 lon2 t target
              = |angle_between_ecliptic_longitudes_deg lon1 lon2 t - target + 360 * (k : ℚ)|)
    ∧ (∀ a b : ℚ, circularMinDist a b = circularMinDist b a)
    ∧ circularMinDist 10 350 = 20
    ∧ angle_diff_to_target_deg (fun _ => 359) lonZero 0 0 = 1 := by
  refine ⟨?_, circularMinDist_comm, ?_, ?_⟩
  · intro lon1 lon2 t target ht0 ht
    have hs0 := angle_between_nonneg lon1 lon2 t
    have hs := angle_between_lt_360 lon1 lon2 t
    have heq : angle_diff_to_target_deg lon1 lon2 t target
        = circularMinDist (angle_between_ecliptic_longitudes_deg lon1 lon2 t) target := by
      unfold angle_diff_to_target_deg
      exact angleDiffOfSep_eq_circular _ _ hs0 hs ht0 ht
    have habs : |angle_between_ecliptic_longitudes_deg lon1 lon2 t - target| ≤ 360 := by
      rcases abs_cases (angle_between_ecliptic_longitudes_deg lon1 lon2 t - target) with
        ⟨h1, _⟩ | ⟨h1, _⟩ <;> linarith
    refine ⟨heq, ?_, ?_, ?_, ?_⟩
    · rw [heq]; exact circularMinDist_nonneg _ _ habs
    · rw [heq]; exact circularMinDist_le_180 _ _
    · intro k
      rw [heq]
      exact circularMinDist_le_abs _ _ hs0 hs ht0 ht k
    · rw [heq]
      exact circularMinDist_exists_abs _ _ hs0 hs ht0 ht
  · unfold circularMinDist
    rw [show |(10 : ℚ) - 350| = 340 by rw [abs_of_nonpos] <;> norm_num]
    norm_num
  · with_unfolding_all decide

theorem angle_diff_is_circular_min_distance_witness :
    (0 : ℚ) ≤ 350 ∧ (350 : ℚ) ≤ 360
    ∧ angle_diff_to_target_deg (fun _ => 10) lonZero 0 350
        = circularMinDist (angle_between_ecliptic_longitudes_deg (fun _ => 10) lonZero 0) 350 := by
  refine ⟨by norm_num, by norm_num, ?_⟩
  exact (angle_diff_is_circular_min_distance.1 (fun _ => 10) lonZero 0 350
    (by norm_num) (by norm_num)).1

/-- C8: when the two selected bodies are identical the driver reports
the configuration error immediately: the outcome is the identical-body
error for every longitude function (so no ephemeris longitude is ever
evaluated) and the scan is never started. -/
theorem identical_planets_rejected (lon1 lon2 lon1b lon2b : ℚ → ℚ)
    (p1 p2 : Planet) (fp : Bool) (sel : List ℚ) (aT sD eD : ℚ) (h : p1 = p2) :
    runScanRequest lon1 lon2 p1 p2 fp sel aT sD eD = RunResult.errIdenticalPlanets
    ∧ runScanRequest lon1 lon2 p1 p2 fp sel aT sD eD
        = runScanRequest lon1b lon2b p1 p2 fp sel aT sD eD
    ∧ ∀ targets : List ℚ,
        runScanRequest lon1 lon2 p1 p2 fp sel aT sD eD ≠ RunResult.scanStarted targets := by
  unfold runScanRequest
  rw [if_pos h, if_pos h]
  exact ⟨rfl, rfl, fun targets hne => RunResult.noConfusion hne⟩

theorem identical_planets_rejected_witness :
    Planet.sun = Planet.sun
    ∧ runScanRequest lonZero lonOne Planet.sun Planet.sun false [0] 0 0 86400
        = RunResult.errIdenticalPlanets :=
  ⟨rfl, (identical_planets_rejected lonZero lonOne lonOne lonZero Planet.sun Planet.sun
    false [0] 0 0 86400 rfl).1⟩

/-- C9: the finalisation step sorts the collected hits by timestamp and
deduplication preserves that order, so the final hit list of a scan is
sorted by timestamp ascending whatever order hits were collected in. -/
theorem scan_result_sorted_by_timestamp :
    (∀ results : List Hit, List.Sorted tsLe (finalizeResults results))
    ∧ ∀ (lon1 lon2 : ℚ → ℚ) (targets : List ℚ) (orb s e step r : ℚ) (fuel : ℕ),
        List.Sorted tsLe (scan_harmonic_timing_refined lon1 lon2 targets orb s e step r fuel) := by
  have hfin : ∀ results : List Hit, List.Sorted tsLe (finalizeResults results) := by
    intro results
    match results with
    | [] => exact List.sorted_nil
    | r :: rs =>
      have hsorted : List.Sorted tsLe (List.insertionSort tsLe (r :: rs)) :=
        List.sorted_insertionSort tsLe (r :: rs)
      have hsub := dedupe_sublist (List.insertionSort tsLe (r :: rs))
      exact hsorted.sublist hsub
  exact ⟨hfin, fun lon1 lon2 targets orb s e step r fuel => hfin _⟩

/-- C10: every bracket the coarse loop visits lies inside the scan
window, the refinement only returns times inside its bracket, and hence
every hit in the scan result has its timestamp inside the window. -/
theorem scan_hits_within_window (lon1 lon2 : ℚ → ℚ) (targets : List ℚ)
    (orb s e step r : ℚ) (fuel : ℕ)
    (hr0 : 0 ≤ r) (hr1 : r ≤ 1) (hstep : 0 ≤ step) :
    (∀ p ∈ coarseBrackets step e fuel s, s ≤ p.1 ∧ p.1 ≤ p.2 ∧ p.2 ≤ e)
    ∧ ∀ h ∈ scan_harmonic_timing_refined lon1 lon2 targets orb s e step r fuel,
        s ≤ h.ts ∧ h.ts ≤ e := by
  have hb := coarseBrackets_bounds step e hstep fuel s s (le_refl s)
  refine ⟨hb, ?_⟩
  intro h hmem
  unfold scan_harmonic_timing_refined at hmem
  have hcol : h ∈ collectHits lon1 lon2 r orb targets (coarseBrackets step e fuel s) :=
    finalizeResults_mem _ _ hmem
  exact collectHits_ts_bounds lon1 lon2 r orb targets _ s e hr0 hr1 hb h hcol

set_option maxRecDepth 4000 in
theorem scan_hits_within_window_witness :
    (0 : ℚ) ≤ 1 / 2 ∧ (1 : ℚ) / 2 ≤ 1 ∧ (0 : ℚ) ≤ 4
    ∧ ((0 : ℚ) ≤ (Hit.mk 3 0 1).ts ∧ (Hit.mk 3 0 1).ts ≤ 4) := by
  refine ⟨by norm_num, by norm_num, by norm_num, ?_⟩
  exact (scan_hits_within_window lonOne lonZero [0] 1 0 4 4 (1 / 2) 2
    (by norm_num) (by norm_num) (by norm_num)).2 (Hit.mk 3 0 1)
    (by with_unfolding_all decide)

/-
  Staged evaluation of the C5 failing input.  The golden-section loop on
  the bracket [0, 6] runs exactly two iterations before the interval
  drops under the 3-second tolerance; the two steps and the idle tail
  are evaluated separately because the probe positions involve the
  16-digit resphi constant.
-/

lemma qmod_eq_self (x : ℚ) (h0 : 0 ≤ x) (h1 : x < 360) : qmod x 360 = x := by
  unfold qmod
  rw [Int.floor_eq_zero_iff.mpr ⟨by positivity, by rw [div_lt_one] <;> linarith⟩]
  norm_num

lemma angleDiffOfSep_target0 (s : ℚ) (h0 : 0 ≤ s) (h1 : s ≤ 180) :
    angleDiffOfSep s 0 = s := by
  unfold angleDiffOfSep
  rw [if_pos (by norm_num : (0 : ℚ) < 180)]
  rw [show |s - (0 : ℚ)| = s by rw [sub_zero, abs_of_nonneg h0]]
  rw [show |s - ((0 : ℚ) + 360)| = 360 - s by
    rw [abs_of_nonpos (by linarith)]; ring]
  dsimp only
  rw [min_self, min_eq_left (by linarith)]

/-- The deviation profile induced by lonC5 to target 0 is lonC5 itself:
all its values lie in [0, 180]. -/
lemma devC5_eval (u : ℚ) : devC5 u = lonC5 u := by
  unfold devC5 angle_diff_to_target_deg angle_between_ecliptic_longitudes_deg
    ecliptic_longitude_deg lonZero
  rw [qmod_eq_self 0 (le_refl 0) (by norm_num)]
  unfold lonC5
  split_ifs with h1 h2
  · rw [qmod_eq_self 1 (by norm_num) (by norm_num), sub_zero,
      qmod_eq_self 1 (by norm_num) (by norm_num)]
    exact angleDiffOfSep_target0 1 (by norm_num) (by norm_num)
  · rw [qmod_eq_self (1 / 2) (by norm_num) (by norm_num), sub_zero,
      qmod_eq_self (1 / 2) (by norm_num) (by norm_num)]
    exact angleDiffOfSep_target0 (1 / 2) (by norm_num) (by norm_num)
  · rw [qmod_eq_self 2 (by norm_num) (by norm_num), sub_zero,
      qmod_eq_self 2 (by norm_num) (by norm_num)]
    exact angleDiffOfSep_target0 2 (by norm_num) (by norm_num)

lemma goldenStepC5_0 : goldenStep devC5 resphiFloat s0C5 = s1C5 := by
  rw [goldenStep]
  norm_num [s0C5, s1C5, resphiFloat, tsC5, devC5_eval, lonC5, GoldenState.mk.injEq]

lemma goldenStepC5_1 : goldenStep devC5 resphiFloat s1C5 = s2C5 := by
  rw [goldenStep]
  norm_num [s1C5, s2C5, resphiFloat, tsC5, devC5_eval, lonC5, GoldenState.mk.injEq]

lemma goldenLoopC5_tail : goldenLoop devC5 resphiFloat 3 13 s2C5 = s2C5 := by
  norm_num [goldenLoop, s2C5, tsC5]

lemma goldenLoopC5 : goldenLoop devC5 resphiFloat 3 15 s0C5 = s2C5 := by
  have h15 : (15 : ℕ) = 14 + 1 := rfl
  have h14 : (14 : ℕ) = 13 + 1 := rfl
  rw [h15, goldenLoop_succ, if_neg (by norm_num [s0C5]), goldenStepC5_0,
      h14, goldenLoop_succ, if_neg (by norm_num [s1C5, tsC5]), goldenStepC5_1,
      goldenLoopC5_tail]

lemma refineGoldenC5 :
    refineGolden devC5 resphiFloat 0 6 15 3 = ((tsC5, 1 / 2), [2, 2, 1 / 2, 2]) := by
  unfold refineGolden
  rw [if_neg (by norm_num)]
  dsimp only
  have hs0 : (⟨0, 6, 0 + resphiFloat * (6 - 0), 6 - resphiFloat * (6 - 0),
      0 + resphiFloat * (6 - 0), 6 - resphiFloat * (6 - 0),
      devC5 (0 + resphiFloat * (6 - 0)), devC5 (6 - resphiFloat * (6 - 0)),
      [devC5 (0 + resphiFloat * (6 - 0)), devC5 (6 - resphiFloat * (6 - 0))]⟩ : GoldenState)
      = s0C5 := by
    norm_num [s0C5, resphiFloat, tsC5, devC5_eval, lonC5, GoldenState.mk.injEq]
  rw [hs0, goldenLoopC5]
  norm_num [s2C5, tsC5]

lemma refineHitC5 :
    refine_hit_time_golden devC5 resphiFloat 0 6 15 3 = (tsC5, 1 / 2) := by
  unfold refine_hit_time_golden
  rw [refineGoldenC5]

lemma dispatchedC5a : dispatched devC5 1 0 6 = true := by
  with_unfolding_all decide

lemma dispatchedC5b : dispatched devC5 1 6 6 = false := by
  with_unfolding_all decide

lemma bracketTargetHitC5a :
    bracketTargetHit (fun u => angle_diff_to_target_deg lonC5 lonZero u 0)
      resphiFloat 1 0 0 6 = some ⟨tsC5, 0, 1 / 2⟩ := by
  show bracketTargetHit devC5 resphiFloat 1 0 0 6 = some ⟨tsC5, 0, 1 / 2⟩
  unfold bracketTargetHit
  rw [dispatchedC5a, refineHitC5]
  norm_num

lemma bracketTargetHitC5b :
    bracketTargetHit (fun u => angle_diff_to_target_deg lonC5 lonZero u 0)
      resphiFloat 1 0 6 6 = none := by
  show bracketTargetHit devC5 resphiFloat 1 0 6 6 = none
  unfold bracketTargetHit
  rw [dispatchedC5b]
  norm_num

lemma coarseBracketsC5 : coarseBrackets 6 6 2 0 = [(0, 6), (6, 6)] := by
  with_unfolding_all decide

lemma collectHitsC5 :
    collectHits lonC5 lonZero resphiFloat 1 [0] [(0, 6), (6, 6)]
      = [⟨tsC5, 0, 1 / 2⟩] := by
  simp [collectHits, scanBracket, bracketTargetHitC5a, bracketTargetHitC5b]

/-- C5: the scan on the C5 failing input returns exactly one Hit, whose
recorded deviation is 1/2 although the deviation at its recorded
timestamp is 2: the golden-section search shifts probe values without
refreshing the matching time objects, so the returned timestamp belongs
to a discarded probe and the Hit invariant
deviation = circular distance at the recorded timestamp fails, even
though the recorded deviation itself passes the orb filter. -/
theorem scan_records_stale_timestamp :
    scan_harmonic_timing_refined lonC5 lonZero [0] 1 0 6 6 resphiFloat 2
        = [⟨tsC5, 0, 1 / 2⟩]
    ∧ angle_diff_to_target_deg lonC5 lonZero tsC5 0 = 2
    ∧ ((1 : ℚ) / 2 ≠ 2) := by
  refine ⟨?_, ?_, by norm_num⟩
  · unfold scan_harmonic_timing_refined
    rw [coarseBracketsC5, collectHitsC5]
    simp [finalizeResults, List.insertionSort, dedupe, dedupeAux]
  · rw [show angle_diff_to_target_deg lonC5 lonZero tsC5 0 = devC5 tsC5 from rfl,
      devC5_eval]
    norm_num [lonC5, tsC5]
